import Mathlib

/-!
Shallow embedding of the backup utility `final_backup.py`.

Paths are modelled as lists of path segments (`Path.parts` in Python).
The filesystem is a finite association list of file entries plus a list of
existing directories.  Machine effects that the code catches with
`try/except` (stat errors, read errors, unlink errors, rmdir errors) are
modelled with explicit error flags on the entries: an operation on an
entry with the corresponding flag set returns the error case of
`Option`/`Except`, exactly where the Python operation would raise.
SHA-256 is an abstract parameter `sha : List Nat → Nat`: the source's
`sha256_of_file` reads the file in chunks and feeds them into a running
hash, which is equivalent to applying the digest function to the whole
byte content; only equality of digests is ever observed.
-/

/-- A filesystem path, as its list of segments (Python `Path.parts`). -/
abbrev FPath := List String

/-- A regular file: its byte content plus flags for the fault points the
source code guards with `try/except`.  `statError` makes `stat()` raise,
`readError` makes `open`/`read` raise, `unlinkError (some msg)` makes
`unlink()` raise an exception whose string form is `msg`. -/
structure File where
  content : List Nat
  statError : Bool
  readError : Bool
  unlinkError : Option String
deriving DecidableEq, Repr

/-- A filesystem: file entries, existing directories, and the set of
directories on which `rmdir()` raises (e.g. permission denied). -/
structure FS where
  files : List (FPath × File)
  dirs : List FPath
  rmdirError : List FPath
deriving DecidableEq, Repr

/-- First-match lookup of a file entry by path. -/
def lookupFile : List (FPath × File) → FPath → Option File
  | [], _ => none
  | (q, f) :: rest, p => if q = p then some f else lookupFile rest p

/-- Remove every entry at path `p` (effect of a successful `unlink`). -/
def eraseFile (l : List (FPath × File)) (p : FPath) : List (FPath × File) :=
  l.filter (fun e => decide (e.1 ≠ p))

/-- Python `Path.exists()`: true for files and for directories. -/
def pexists (fs : FS) (p : FPath) : Bool :=
  (lookupFile fs.files p).isSome || decide (p ∈ fs.dirs)

/-- Python `p.stat().st_size`: `none` models a raised exception.  A file
with `statError` raises; a missing path raises `FileNotFoundError`; the
size of a directory is modelled as 0 (never observed by the claims). -/
def statSize (fs : FS) (p : FPath) : Option Nat :=
  match lookupFile fs.files p with
  | some f => if f.statError then none else some f.content.length
  | none => if decide (p ∈ fs.dirs) then some 0 else none

/-- Python `p.open("rb")` followed by reading all chunks: `none` models a
raised exception (missing file, directory, or a read error). -/
def readContent (fs : FS) (p : FPath) : Option (List Nat) :=
  match lookupFile fs.files p with
  | some f => if f.readError then none else some f.content
  | none => none

/-- Source `sha256_of_file` (final_backup.py lines 37-42): streams the
file in chunks through a running SHA-256; hashing the chunk stream is
hashing the whole content, so we apply the abstract digest `sha` to the
content.  `none` models a raised exception. -/
def sha256_of_file (sha : List Nat → Nat) (fs : FS) (p : FPath) : Option Nat :=
  (readContent fs p).map sha

/-- Body of the `try:` block of `verify_pair` (lines 80-87): `none` is a
raised exception reaching the `except` handler. -/
def verify_pair_checked (sha : List Nat → Nat) (fs : FS) (src dst : FPath)
    (use_hash : Bool) : Option Bool :=
  if !pexists fs dst || !pexists fs src then some false
  else
    match statSize fs src, statSize fs dst with
    | some ssize, some dsize =>
      if ssize ≠ dsize then some false
      else if use_hash then
        match sha256_of_file sha fs src, sha256_of_file sha fs dst with
        | some hs, some hd => some (decide (hs = hd))
        | _, _ => none
      else some true
    | _, _ => none

/-- Source `verify_pair` (lines 78-89): the `except Exception: return
False` handler turns any raised exception into `false`. -/
def verify_pair (sha : List Nat → Nat) (fs : FS) (src dst : FPath)
    (use_hash : Bool) : Bool :=
  (verify_pair_checked sha fs src dst use_hash).getD false

/-- Python `src.unlink()` (line 104): deletes the file entry, or raises
(`Except.error` with the exception's message). -/
def unlink_fs (fs : FS) (p : FPath) : Except String FS :=
  match lookupFile fs.files p with
  | none => Except.error "No such file or directory"
  | some f =>
    match f.unlinkError with
    | some msg => Except.error msg
    | none => Except.ok { fs with files := eraseFile fs.files p }

/-- Source line 96: `any(part == n for part in src.parts for n in
exclude_names)`. -/
def excludedPath (p : FPath) (exclude_names : List String) : Bool :=
  p.any (fun part => exclude_names.any (fun n => decide (part = n)))

/-- Result of `delete_backed_files`: the two returned lists plus the
filesystem state after its side effects. -/
structure DeleteResult where
  fs : FS
  deleted : List FPath
  failed : List (FPath × String)
deriving DecidableEq, Repr

/-- The per-record loop of `delete_backed_files` (lines 92-107): exclusion
safety rail, verification, then deletion, each failure recorded per
record and the loop continuing with the rest. -/
def deleteLoop (sha : List Nat → Nat) (exclude_names : List String)
    (use_hash : Bool) : FS → List (FPath × FPath) → DeleteResult
  | fs, [] => ⟨fs, [], []⟩
  | fs, (src, dst) :: rest =>
    if excludedPath src exclude_names then
      let r := deleteLoop sha exclude_names use_hash fs rest
      ⟨r.fs, r.deleted, (src, "excluded") :: r.failed⟩
    else if !verify_pair sha fs src dst use_hash then
      let r := deleteLoop sha exclude_names use_hash fs rest
      ⟨r.fs, r.deleted, (src, "verification_failed") :: r.failed⟩
    else
      match unlink_fs fs src with
      | Except.ok fs1 =>
        let r := deleteLoop sha exclude_names use_hash fs1 rest
        ⟨r.fs, src :: r.deleted, r.failed⟩
      | Except.error e =>
        let r := deleteLoop sha exclude_names use_hash fs rest
        ⟨r.fs, r.deleted, (src, "delete_error:" ++ e) :: r.failed⟩

/-- Python `p.parent`, on the segment representation. -/
def parentDir (p : FPath) : FPath := p.dropLast

/-- The order `sorted(dirs, key=lambda p: len(p.parts), reverse=True)`
sorts by: more path segments first. -/
def deeperFirst (a b : FPath) : Prop := b.length ≤ a.length

instance : DecidableRel deeperFirst := fun a b => Nat.decLe b.length a.length

instance : IsTotal FPath deeperFirst :=
  ⟨fun a b => Nat.le_total b.length a.length⟩

instance : IsTrans FPath deeperFirst :=
  ⟨fun _ _ _ hab hbc => Nat.le_trans hbc hab⟩

/-- Lines 111-113: `dirs = {p.parent for p in deleted}` then
`sorted(dirs, key=lambda p: len(p.parts), reverse=True)` — the
deduplicated parents, sorted deepest-first by segment count. -/
def pruneCandidates (deleted : List FPath) : List FPath :=
  List.insertionSort deeperFirst ((deleted.map parentDir).dedup)

/-- Python `any(d.iterdir())`: the directory has some child entry (a file
or a directory whose parent is `d`). -/
def hasChildEntry (fs : FS) (d : FPath) : Bool :=
  fs.files.any (fun e => decide (parentDir e.1 = d)) ||
    fs.dirs.any (fun q => decide (parentDir q = d) && decide (q ≠ d))

/-- One iteration of the pruning loop (lines 114-120): remove `d` only if
it still exists, is a directory and is empty; a raised `rmdir` error is
swallowed by `except Exception: pass`. -/
def pruneOne (fs : FS) (d : FPath) : FS :=
  if pexists fs d && decide (d ∈ fs.dirs) && !hasChildEntry fs d then
    if decide (d ∈ fs.rmdirError) then fs
    else { fs with dirs := fs.dirs.filter (fun q => decide (q ≠ d)) }
  else fs

/-- Source `delete_backed_files` (lines 91-121): the per-record loop,
then, when `remove_empty_dirs` is set, best-effort pruning of the
deduplicated, deepest-first-sorted parents of the deleted files. -/
def delete_backed_files (sha : List Nat → Nat) (fs : FS)
    (copied_pairs : List (FPath × FPath)) (exclude_names : List String)
    (use_hash remove_empty_dirs : Bool) : DeleteResult :=
  let r := deleteLoop sha exclude_names use_hash fs copied_pairs
  if remove_empty_dirs then
    ⟨List.foldl pruneOne r.fs (pruneCandidates r.deleted), r.deleted, r.failed⟩
  else r

/-- Well-formedness of a filesystem: no path is simultaneously a file
entry and a directory (true of every real filesystem). -/
def wfFS (fs : FS) : Bool :=
  fs.files.all (fun e => decide (e.1 ∉ fs.dirs))

/-- A source directory tree: the regular files of a directory plus its
named subdirectories (the structure `os.walk` traverses). -/
inductive FTree where
  | node (files : List String) (subdirs : List (String × FTree))
deriving Repr

mutual
/-- Source `copy_files_recursive` (lines 55-76), at the `os.walk` visit
of the directory `rel` (path relative to `src_dir`): line 61 skips the
whole visit when any relative segment is excluded (the walk itself still
descends, since `dirs` is not pruned), line 69 skips files whose name is
excluded, line 75 records the (source, destination) pair. -/
def copy_files_recursive_from (exclude_names : List String)
    (src_dir dst_dir : FPath) : FPath → FTree → List (FPath × FPath)
  | rel, FTree.node files subdirs =>
    (if rel.any (fun part => exclude_names.any (fun n => decide (part = n)))
     then []
     else
       files.filterMap (fun fname =>
         if exclude_names.any (fun n => decide (fname = n)) then none
         else some (src_dir ++ rel ++ [fname], dst_dir ++ rel ++ [fname])))
    ++ copy_files_recursive_subdirs exclude_names src_dir dst_dir rel subdirs

/-- The `os.walk` descent into the subdirectories of the directory `rel`,
in order. -/
def copy_files_recursive_subdirs (exclude_names : List String)
    (src_dir dst_dir : FPath) :
    FPath → List (String × FTree) → List (FPath × FPath)
  | _, [] => []
  | rel, (d, t) :: rest =>
    copy_files_recursive_from exclude_names src_dir dst_dir (rel ++ [d]) t
    ++ copy_files_recursive_subdirs exclude_names src_dir dst_dir rel rest
end

/-- Source `copy_files_recursive` started, as in the source, at the walk
of `src_dir` itself (relative path `[]`). -/
def copy_files_recursive (exclude_names : List String)
    (src_dir dst_dir : FPath) (t : FTree) : List (FPath × FPath) :=
  copy_files_recursive_from exclude_names src_dir dst_dir [] t

/-- A wall-clock instant, as the fields `datetime.now()` exposes to
`strftime("%Y%m%d_%H%M%S")`. -/
structure PyDateTime where
  year : Nat
  month : Nat
  day : Nat
  hour : Nat
  minute : Nat
  second : Nat
deriving DecidableEq, Repr

/-- Zero-padding to two digits (`%m`, `%d`, `%H`, `%M`, `%S`). -/
def pad2 (n : Nat) : String :=
  if n < 10 then "0" ++ toString n else toString n

/-- Zero-padding to four digits (`%Y`). -/
def pad4 (n : Nat) : String :=
  if n < 10 then "000" ++ toString n
  else if n < 100 then "00" ++ toString n
  else if n < 1000 then "0" ++ toString n
  else toString n

/-- Source line 32: `datetime.now().strftime("%Y%m%d_%H%M%S")`, the
`YYYYMMDD_HHMMSS` timestamp. -/
def timestampYmdHMS (dt : PyDateTime) : String :=
  pad4 dt.year ++ pad2 dt.month ++ pad2 dt.day ++ "_" ++
    pad2 dt.hour ++ pad2 dt.minute ++ pad2 dt.second

/-- Source `create_unique_backup_dir` (lines 31-35): tries
`{base_name}_{timestamp}` with `mkdir(exist_ok=False)`; an existing
directory raises `FileExistsError` (the `Except.error`).  On success
returns the created name and the updated set of existing directories. -/
def create_unique_backup_dir (existing : List String) (base_name : String)
    (dt : PyDateTime) : Except Unit (String × List String) :=
  let candidate := base_name ++ "_" ++ timestampYmdHMS dt
  if candidate ∈ existing then Except.error ()
  else Except.ok (candidate, candidate :: existing)

/-- The `while True` probe loop of `main` (lines 149-156): tries
`{base_name}_{i}` for `i = 1, 2, ...` until `mkdir` succeeds.  The
unbounded Python loop is modelled with an explicit fuel bound; `none`
means the fuel ran out before a free name was found. -/
def probeBackupDir (existing : List String) (base_name : String) :
    Nat → Nat → Option (String × List String)
  | _, 0 => none
  | i, fuel + 1 =>
    let candidate := base_name ++ "_" ++ toString i
    if candidate ∈ existing then probeBackupDir existing base_name (i + 1) fuel
    else some (candidate, candidate :: existing)

/-- Allocation as performed by `main` (lines 146-156): first
`create_unique_backup_dir`, and on `FileExistsError` the probe loop
starting at 1. -/
def allocate_backup_dir (existing : List String) (base_name : String)
    (dt : PyDateTime) (fuel : Nat) : Option (String × List String) :=
  match create_unique_backup_dir existing base_name dt with
  | Except.ok r => some r
  | Except.error _ => probeBackupDir existing base_name 1 fuel

/-- The configuration argparse hands to `main`. -/
structure Args where
  recursive : Bool
  name : String
  delete : Bool
  remove_empty_dirs : Bool
  hash : Bool
  force : Bool
deriving DecidableEq, Repr

/-- Source line 183: `resp.strip().lower()` on the confirmation answer —
whitespace removed from both ends, every character lowercased (written
on the character list so that it evaluates by kernel reduction). -/
def strip_lower (s : String) : String :=
  ⟨(((s.data.dropWhile Char.isWhitespace).reverse.dropWhile
    Char.isWhitespace).reverse).map Char.toLower⟩

/-- The deletion phase of `main` (lines 180-197), after copying produced
`copied`: if deletion was not requested, or the confirmation prompt
(shown only without `--force`) is answered with anything but `y`, the
run returns with the filesystem untouched and no deletions; otherwise it
runs `delete_backed_files`. -/
def main_delete_phase (sha : List Nat → Nat) (fs : FS)
    (copied : List (FPath × FPath)) (exclude : List String) (args : Args)
    (resp : String) : DeleteResult :=
  if args.delete then
    if !args.force && decide (strip_lower resp ≠ "y") then ⟨fs, [], []⟩
    else delete_backed_files sha fs copied exclude args.hash args.remove_empty_dirs
  else ⟨fs, [], []⟩

/-!  Helper lemmas.  -/

theorem lookupFile_mem {l : List (FPath × File)} {p : FPath} {f : File}
    (h : lookupFile l p = some f) : (p, f) ∈ l := by
  induction l with
  | nil => simp [lookupFile] at h
  | cons a rest ih =>
    obtain ⟨q, g⟩ := a
    unfold lookupFile at h
    by_cases hq : q = p
    · subst hq
      simp at h
      subst h
      exact List.mem_cons_self _ _
    · rw [if_neg hq] at h
      exact List.mem_cons_of_mem _ (ih h)

theorem wfFS_lookup_eq_none {fs : FS} {p : FPath} (hwf : wfFS fs = true)
    (hp : p ∈ fs.dirs) : lookupFile fs.files p = none := by
  cases hl : lookupFile fs.files p with
  | none => rfl
  | some f =>
    exfalso
    have hmem := lookupFile_mem hl
    unfold wfFS at hwf
    rw [List.all_eq_true] at hwf
    have := hwf _ hmem
    simp at this
    exact this hp

/-- Characterization of `verify_pair`: the function is total (it always
returns a `Bool`), and it returns `true` exactly when both paths exist,
stat succeeds on both with equal sizes, and, when hashing is requested,
both files can be read and their digests agree.  Any modelled exception
(`none` from `statSize`/`readContent`) falls outside the right-hand side
and hence yields `false`. -/
theorem verify_pair_eq_true_iff (sha : List Nat → Nat) (fs : FS)
    (src dst : FPath) (uh : Bool) :
    verify_pair sha fs src dst uh = true ↔
      pexists fs src = true ∧ pexists fs dst = true ∧
      (∃ n, statSize fs src = some n ∧ statSize fs dst = some n) ∧
      (uh = true → ∃ c c2, readContent fs src = some c ∧
        readContent fs dst = some c2 ∧ sha c = sha c2) := by
  unfold verify_pair verify_pair_checked sha256_of_file
  cases hpd : pexists fs dst with
  | false => simp
  | true =>
    cases hps : pexists fs src with
    | false => simp
    | true =>
      simp only [Bool.not_true, Bool.or_self, Bool.false_or, if_false]
      cases hss : statSize fs src with
      | none => simp
      | some ss =>
        cases hsd : statSize fs dst with
        | none => simp
        | some ds =>
          by_cases hed : ss = ds
          · subst hed
            cases uh with
            | false => simp
            | true =>
              cases hrc : readContent fs src with
              | none => simp
              | some c =>
                cases hrd : readContent fs dst with
                | none => simp
                | some c2 => simp
          · simp [hed]
            intro heq
            exact absurd heq.symm hed

/-- An erased-files relation between filesystem states: every file entry
of `fs1` is an entry of `fs2` (with the same data), and the directories
coincide.  Intermediate states of `deleteLoop` relate to the initial
state this way. -/
def SubFS (fs1 fs2 : FS) : Prop :=
  (∀ p f, lookupFile fs1.files p = some f → lookupFile fs2.files p = some f) ∧
    fs1.dirs = fs2.dirs

theorem subFS_refl (fs : FS) : SubFS fs fs :=
  ⟨fun _ _ h => h, rfl⟩

theorem subFS_trans {fs1 fs2 fs3 : FS} (h12 : SubFS fs1 fs2)
    (h23 : SubFS fs2 fs3) : SubFS fs1 fs3 :=
  ⟨fun p f h => h23.1 p f (h12.1 p f h), h12.2.trans h23.2⟩

theorem lookupFile_cons (k : FPath) (f : File) (rest : List (FPath × File))
    (q : FPath) :
    lookupFile ((k, f) :: rest) q = if k = q then some f else lookupFile rest q :=
  rfl

theorem lookupFile_eraseFile (l : List (FPath × File)) (p q : FPath) :
    lookupFile (eraseFile l p) q = if q = p then none else lookupFile l q := by
  induction l with
  | nil => simp [eraseFile, lookupFile]
  | cons a rest ih =>
    obtain ⟨k, f⟩ := a
    unfold eraseFile at ih ⊢
    rw [List.filter_cons]
    by_cases hk : k = p
    · rw [if_neg (by simp [hk]), ih, lookupFile_cons]
      by_cases hq : q = p
      · rw [if_pos hq, if_pos hq]
      · rw [if_neg hq, if_neg hq,
          if_neg (show ¬k = q by rw [hk]; exact fun h => hq h.symm)]
    · rw [if_pos (by simp [hk]), lookupFile_cons, lookupFile_cons]
      by_cases hkq : k = q
      · rw [if_pos hkq, if_neg (fun h => hk (hkq.trans h)), if_pos hkq]
      · rw [if_neg hkq, ih]
        by_cases hq : q = p
        · rw [if_pos hq, if_pos hq]
        · rw [if_neg hq, if_neg hq, if_neg hkq]

theorem subFS_unlink {fs fs1 : FS} {p : FPath}
    (h : unlink_fs fs p = Except.ok fs1) : SubFS fs1 fs := by
  unfold unlink_fs at h
  split at h
  · exact absurd h (by simp)
  · split at h
    · exact absurd h (by simp)
    · have h2 : { fs with files := eraseFile fs.files p } = fs1 := Except.ok.inj h
      subst h2
      refine ⟨fun q g hg => ?_, rfl⟩
      have hg2 : lookupFile (eraseFile fs.files p) q = some g := hg
      rw [lookupFile_eraseFile] at hg2
      by_cases hq : q = p
      · rw [if_pos hq] at hg2; exact absurd hg2 (by simp)
      · rwa [if_neg hq] at hg2

theorem pexists_mono {fs1 fs2 : FS} (hsub : SubFS fs1 fs2) (p : FPath)
    (h : pexists fs1 p = true) : pexists fs2 p = true := by
  unfold pexists at h ⊢
  rw [Bool.or_eq_true] at h ⊢
  cases h with
  | inl h =>
    cases hl : lookupFile fs1.files p with
    | none => rw [hl] at h; exact absurd h (by simp)
    | some f => exact Or.inl (by rw [hsub.1 p f hl]; rfl)
  | inr h => exact Or.inr (by rw [← hsub.2]; exact h)

theorem statSize_mono {fs1 fs2 : FS} (hsub : SubFS fs1 fs2)
    (hwf : wfFS fs2 = true) (p : FPath) {n : Nat}
    (h : statSize fs1 p = some n) : statSize fs2 p = some n := by
  unfold statSize at h ⊢
  cases hl : lookupFile fs1.files p with
  | some f =>
    rw [hl] at h
    rw [hsub.1 p f hl]
    exact h
  | none =>
    rw [hl] at h
    by_cases hd : p ∈ fs1.dirs
    · rw [if_pos (by simpa using hd)] at h
      have hd2 : p ∈ fs2.dirs := hsub.2 ▸ hd
      rw [wfFS_lookup_eq_none hwf hd2]
      rw [if_pos (by simpa using hd2)]
      exact h
    · rw [if_neg (by simpa using hd)] at h
      exact absurd h (by simp)

theorem readContent_mono {fs1 fs2 : FS} (hsub : SubFS fs1 fs2) (p : FPath)
    {c : List Nat} (h : readContent fs1 p = some c) :
    readContent fs2 p = some c := by
  unfold readContent at h ⊢
  cases hl : lookupFile fs1.files p with
  | none => rw [hl] at h; exact absurd h (by simp)
  | some f =>
    rw [hl] at h
    rw [hsub.1 p f hl]
    exact h

theorem verify_pair_mono (sha : List Nat → Nat) {fs1 fs2 : FS}
    (hsub : SubFS fs1 fs2) (hwf : wfFS fs2 = true) (src dst : FPath)
    (uh : Bool) (h : verify_pair sha fs1 src dst uh = true) :
    verify_pair sha fs2 src dst uh = true := by
  rw [verify_pair_eq_true_iff] at h ⊢
  obtain ⟨h1, h2, ⟨n, h3, h4⟩, h5⟩ := h
  refine ⟨pexists_mono hsub src h1, pexists_mono hsub dst h2,
    ⟨n, statSize_mono hsub hwf src h3, statSize_mono hsub hwf dst h4⟩,
    fun hu => ?_⟩
  obtain ⟨c, c2, hc, hc2, he⟩ := h5 hu
  exact ⟨c, c2, readContent_mono hsub src hc, readContent_mono hsub dst hc2, he⟩

theorem deleteLoop_cons_excluded (sha : List Nat → Nat) (ex : List String)
    (uh : Bool) (fs : FS) (src dst : FPath) (rest : List (FPath × FPath))
    (hex : excludedPath src ex = true) :
    deleteLoop sha ex uh fs ((src, dst) :: rest) =
      ⟨(deleteLoop sha ex uh fs rest).fs, (deleteLoop sha ex uh fs rest).deleted,
        (src, "excluded") :: (deleteLoop sha ex uh fs rest).failed⟩ := by
  simp [deleteLoop, hex]

theorem deleteLoop_cons_not_verified (sha : List Nat → Nat) (ex : List String)
    (uh : Bool) (fs : FS) (src dst : FPath) (rest : List (FPath × FPath))
    (hex : excludedPath src ex = false)
    (hv : verify_pair sha fs src dst uh = false) :
    deleteLoop sha ex uh fs ((src, dst) :: rest) =
      ⟨(deleteLoop sha ex uh fs rest).fs, (deleteLoop sha ex uh fs rest).deleted,
        (src, "verification_failed") :: (deleteLoop sha ex uh fs rest).failed⟩ := by
  simp [deleteLoop, hex, hv]

theorem deleteLoop_cons_unlink_ok (sha : List Nat → Nat) (ex : List String)
    (uh : Bool) (fs fs2 : FS) (src dst : FPath) (rest : List (FPath × FPath))
    (hex : excludedPath src ex = false)
    (hv : verify_pair sha fs src dst uh = true)
    (hu : unlink_fs fs src = Except.ok fs2) :
    deleteLoop sha ex uh fs ((src, dst) :: rest) =
      ⟨(deleteLoop sha ex uh fs2 rest).fs,
        src :: (deleteLoop sha ex uh fs2 rest).deleted,
        (deleteLoop sha ex uh fs2 rest).failed⟩ := by
  simp [deleteLoop, hex, hv, hu]

theorem deleteLoop_cons_unlink_err (sha : List Nat → Nat) (ex : List String)
    (uh : Bool) (fs : FS) (src dst : FPath) (rest : List (FPath × FPath))
    (e : String) (hex : excludedPath src ex = false)
    (hv : verify_pair sha fs src dst uh = true)
    (hu : unlink_fs fs src = Except.error e) :
    deleteLoop sha ex uh fs ((src, dst) :: rest) =
      ⟨(deleteLoop sha ex uh fs rest).fs, (deleteLoop sha ex uh fs rest).deleted,
        (src, "delete_error:" ++ e) :: (deleteLoop sha ex uh fs rest).failed⟩ := by
  simp [deleteLoop, hex, hv, hu]

theorem delete_backed_files_deleted (sha : List Nat → Nat) (fs : FS)
    (recs : List (FPath × FPath)) (ex : List String) (uh b : Bool) :
    (delete_backed_files sha fs recs ex uh b).deleted =
      (deleteLoop sha ex uh fs recs).deleted := by
  cases b <;> simp [delete_backed_files]

theorem delete_backed_files_failed (sha : List Nat → Nat) (fs : FS)
    (recs : List (FPath × FPath)) (ex : List String) (uh b : Bool) :
    (delete_backed_files sha fs recs ex uh b).failed =
      (deleteLoop sha ex uh fs recs).failed := by
  cases b <;> simp [delete_backed_files]

theorem deleteLoop_deleted_verified (sha : List Nat → Nat) (ex : List String)
    (uh : Bool) (fs : FS) (hwf : wfFS fs = true) :
    ∀ (recs : List (FPath × FPath)) (fs1 : FS), SubFS fs1 fs →
      ∀ p ∈ (deleteLoop sha ex uh fs1 recs).deleted,
        ∃ d, (p, d) ∈ recs ∧ verify_pair sha fs p d uh = true := by
  intro recs
  induction recs with
  | nil => intro fs1 _ p hp; simp [deleteLoop] at hp
  | cons a rest ih =>
    obtain ⟨src, dst⟩ := a
    intro fs1 hsub p hp
    by_cases hex : excludedPath src ex = true
    · rw [deleteLoop_cons_excluded sha ex uh fs1 src dst rest hex] at hp
      obtain ⟨d, hmem, hv⟩ := ih fs1 hsub p hp
      exact ⟨d, List.mem_cons_of_mem _ hmem, hv⟩
    · rw [Bool.not_eq_true] at hex
      by_cases hv : verify_pair sha fs1 src dst uh = true
      · cases hu : unlink_fs fs1 src with
        | ok fs2 =>
          rw [deleteLoop_cons_unlink_ok sha ex uh fs1 fs2 src dst rest hex hv hu]
            at hp
          rcases List.mem_cons.mp hp with hps | hp2
          · refine ⟨dst, ?_, ?_⟩
            · rw [hps]
              exact List.mem_cons_self _ _
            · rw [hps]
              exact verify_pair_mono sha hsub hwf src dst uh hv
          · obtain ⟨d, hmem, hvv⟩ :=
              ih fs2 (subFS_trans (subFS_unlink hu) hsub) p hp2
            exact ⟨d, List.mem_cons_of_mem _ hmem, hvv⟩
        | error e =>
          rw [deleteLoop_cons_unlink_err sha ex uh fs1 src dst rest e hex hv hu]
            at hp
          obtain ⟨d, hmem, hvv⟩ := ih fs1 hsub p hp
          exact ⟨d, List.mem_cons_of_mem _ hmem, hvv⟩
      · rw [Bool.not_eq_true] at hv
        rw [deleteLoop_cons_not_verified sha ex uh fs1 src dst rest hex hv] at hp
        obtain ⟨d, hmem, hvv⟩ := ih fs1 hsub p hp
        exact ⟨d, List.mem_cons_of_mem _ hmem, hvv⟩

theorem deleteLoop_partition (sha : List Nat → Nat) (ex : List String)
    (uh : Bool) :
    ∀ (recs : List (FPath × FPath)) (fs : FS),
      (deleteLoop sha ex uh fs recs).deleted.length +
          (deleteLoop sha ex uh fs recs).failed.length = recs.length ∧
      List.Sublist (deleteLoop sha ex uh fs recs).deleted (recs.map Prod.fst) ∧
      List.Sublist ((deleteLoop sha ex uh fs recs).failed.map Prod.fst)
        (recs.map Prod.fst) ∧
      List.Perm ((deleteLoop sha ex uh fs recs).deleted ++
        (deleteLoop sha ex uh fs recs).failed.map Prod.fst)
        (recs.map Prod.fst) := by
  intro recs
  induction recs with
  | nil =>
    intro fs
    refine ⟨rfl, ?_, ?_, ?_⟩ <;> simp [deleteLoop]
  | cons a rest ih =>
    obtain ⟨src, dst⟩ := a
    intro fs
    by_cases hex : excludedPath src ex = true
    · rw [deleteLoop_cons_excluded sha ex uh fs src dst rest hex]
      obtain ⟨hl, hs1, hs2, hperm⟩ := ih fs
      refine ⟨?_, ?_, ?_, ?_⟩
      · simp only [List.length_cons, List.length_map, List.map_cons]
        omega
      · exact List.Sublist.cons src hs1
      · exact List.Sublist.cons₂ src hs2
      · simp only [List.map_cons]
        exact (List.perm_middle).trans (List.Perm.cons src hperm)
    · rw [Bool.not_eq_true] at hex
      by_cases hv : verify_pair sha fs src dst uh = true
      · cases hu : unlink_fs fs src with
        | ok fs2 =>
          rw [deleteLoop_cons_unlink_ok sha ex uh fs fs2 src dst rest hex hv hu]
          obtain ⟨hl, hs1, hs2, hperm⟩ := ih fs2
          refine ⟨?_, ?_, ?_, ?_⟩
          · simp only [List.length_cons]
            omega
          · exact List.Sublist.cons₂ src hs1
          · exact List.Sublist.cons src hs2
          · simp only [List.map_cons, List.cons_append]
            exact List.Perm.cons src hperm
        | error e =>
          rw [deleteLoop_cons_unlink_err sha ex uh fs src dst rest e hex hv hu]
          obtain ⟨hl, hs1, hs2, hperm⟩ := ih fs
          refine ⟨?_, ?_, ?_, ?_⟩
          · simp only [List.length_cons, List.length_map, List.map_cons]
            omega
          · exact List.Sublist.cons src hs1
          · exact List.Sublist.cons₂ src hs2
          · simp only [List.map_cons]
            exact (List.perm_middle).trans (List.Perm.cons src hperm)
      · rw [Bool.not_eq_true] at hv
        rw [deleteLoop_cons_not_verified sha ex uh fs src dst rest hex hv]
        obtain ⟨hl, hs1, hs2, hperm⟩ := ih fs
        refine ⟨?_, ?_, ?_, ?_⟩
        · simp only [List.length_cons, List.length_map, List.map_cons]
          omega
        · exact List.Sublist.cons src hs1
        · exact List.Sublist.cons₂ src hs2
        · simp only [List.map_cons]
          exact (List.perm_middle).trans (List.Perm.cons src hperm)

theorem pruneOne_files (fs : FS) (d : FPath) : (pruneOne fs d).files = fs.files := by
  unfold pruneOne
  split
  · split
    · rfl
    · rfl
  · rfl

theorem pruneOne_rmdirError (fs : FS) (d : FPath) :
    (pruneOne fs d).rmdirError = fs.rmdirError := by
  unfold pruneOne
  split
  · split
    · rfl
    · rfl
  · rfl

theorem pruneOne_dirs_subset (fs : FS) (d q : FPath)
    (h : q ∈ (pruneOne fs d).dirs) : q ∈ fs.dirs := by
  unfold pruneOne at h
  split at h
  · split at h
    · exact h
    · exact List.mem_of_mem_filter h
  · exact h

theorem pruneOne_removed (fs : FS) (d q : FPath) (hq : q ∈ fs.dirs)
    (hnq : q ∉ (pruneOne fs d).dirs) :
    q = d ∧ d ∉ fs.rmdirError ∧ hasChildEntry fs d = false := by
  unfold pruneOne at hnq
  split at hnq
  · next hcond =>
    split at hnq
    · exact absurd hq hnq
    · next hr =>
      have hqd : q = d := by
        by_contra hne
        exact hnq (List.mem_filter.mpr ⟨hq, by simp [hne]⟩)
      have hchild : hasChildEntry fs d = false := by
        simp only [Bool.and_eq_true, Bool.not_eq_true'] at hcond
        exact hcond.2
      exact ⟨hqd, by simpa using hr, hchild⟩
  · exact absurd hq hnq

theorem foldl_pruneOne_files (ds : List FPath) :
    ∀ fs : FS, (List.foldl pruneOne fs ds).files = fs.files := by
  induction ds with
  | nil => intro fs; rfl
  | cons d rest ih => intro fs; rw [List.foldl_cons, ih, pruneOne_files]

theorem foldl_pruneOne_rmdirError (ds : List FPath) :
    ∀ fs : FS, (List.foldl pruneOne fs ds).rmdirError = fs.rmdirError := by
  induction ds with
  | nil => intro fs; rfl
  | cons d rest ih => intro fs; rw [List.foldl_cons, ih, pruneOne_rmdirError]

theorem foldl_pruneOne_dirs_subset (ds : List FPath) :
    ∀ (fs : FS) (q : FPath), q ∈ (List.foldl pruneOne fs ds).dirs → q ∈ fs.dirs := by
  induction ds with
  | nil => intro fs q h; exact h
  | cons d rest ih =>
    intro fs q h
    rw [List.foldl_cons] at h
    exact pruneOne_dirs_subset fs d q (ih (pruneOne fs d) q h)

theorem foldl_pruneOne_removed (ds : List FPath) :
    ∀ (fs : FS) (q : FPath), q ∈ fs.dirs →
      q ∉ (List.foldl pruneOne fs ds).dirs →
      q ∈ ds ∧ q ∉ fs.rmdirError ∧
        fs.files.any (fun e => decide (parentDir e.1 = q)) = false := by
  induction ds with
  | nil => intro fs q hq hnq; exact absurd hq hnq
  | cons d rest ih =>
    intro fs q hq hnq
    rw [List.foldl_cons] at hnq
    by_cases hmid : q ∈ (pruneOne fs d).dirs
    · obtain ⟨h1, h2, h3⟩ := ih (pruneOne fs d) q hmid hnq
      refine ⟨List.mem_cons_of_mem _ h1, ?_, ?_⟩
      · rwa [pruneOne_rmdirError] at h2
      · rwa [pruneOne_files] at h3
    · obtain ⟨hqd, hrm, hchild⟩ := pruneOne_removed fs d q hq hmid
      subst hqd
      refine ⟨List.mem_cons_self _ _, hrm, ?_⟩
      cases hfa : fs.files.any (fun e => decide (parentDir e.1 = q)) with
      | false => rfl
      | true =>
        unfold hasChildEntry at hchild
        rw [hfa] at hchild
        simp at hchild

theorem pruneCandidates_mem (deleted : List FPath) (d : FPath) :
    d ∈ pruneCandidates deleted ↔ ∃ p ∈ deleted, parentDir p = d := by
  unfold pruneCandidates
  rw [(List.perm_insertionSort _ _).mem_iff, List.mem_dedup, List.mem_map]

theorem pruneCandidates_nodup (deleted : List FPath) :
    (pruneCandidates deleted).Nodup :=
  (List.perm_insertionSort _ _).nodup_iff.mpr (List.nodup_dedup _)

theorem pruneCandidates_sorted (deleted : List FPath) :
    (pruneCandidates deleted).Pairwise deeperFirst :=
  List.sorted_insertionSort deeperFirst ((deleted.map parentDir).dedup)

theorem unlink_dirs {fs fs1 : FS} {p : FPath}
    (h : unlink_fs fs p = Except.ok fs1) :
    fs1.dirs = fs.dirs ∧ fs1.rmdirError = fs.rmdirError := by
  unfold unlink_fs at h
  split at h
  · exact absurd h (by simp)
  · split at h
    · exact absurd h (by simp)
    · have h2 : { fs with files := eraseFile fs.files p } = fs1 := Except.ok.inj h
      subst h2
      exact ⟨rfl, rfl⟩

theorem deleteLoop_dirs (sha : List Nat → Nat) (ex : List String) (uh : Bool) :
    ∀ (recs : List (FPath × FPath)) (fs : FS),
      (deleteLoop sha ex uh fs recs).fs.dirs = fs.dirs ∧
      (deleteLoop sha ex uh fs recs).fs.rmdirError = fs.rmdirError := by
  intro recs
  induction recs with
  | nil => intro fs; exact ⟨rfl, rfl⟩
  | cons a rest ih =>
    obtain ⟨src, dst⟩ := a
    intro fs
    by_cases hex : excludedPath src ex = true
    · rw [deleteLoop_cons_excluded sha ex uh fs src dst rest hex]
      exact ih fs
    · rw [Bool.not_eq_true] at hex
      by_cases hv : verify_pair sha fs src dst uh = true
      · cases hu : unlink_fs fs src with
        | ok fs2 =>
          rw [deleteLoop_cons_unlink_ok sha ex uh fs fs2 src dst rest hex hv hu]
          obtain ⟨h1, h2⟩ := ih fs2
          obtain ⟨h3, h4⟩ := unlink_dirs hu
          exact ⟨h1.trans h3, h2.trans h4⟩
        | error e =>
          rw [deleteLoop_cons_unlink_err sha ex uh fs src dst rest e hex hv hu]
          exact ih fs
      · rw [Bool.not_eq_true] at hv
        rw [deleteLoop_cons_not_verified sha ex uh fs src dst rest hex hv]
        exact ih fs

theorem anyMem_iff (p : String) (l : List String) :
    l.any (fun n => decide (p = n)) = true ↔ p ∈ l := by
  rw [List.any_eq_true]
  constructor
  · rintro ⟨n, hn, hd⟩
    rw [decide_eq_true_eq] at hd
    rwa [hd]
  · intro h
    exact ⟨p, h, by simp⟩

theorem excludedPath_eq_true_iff (p : FPath) (ex : List String) :
    excludedPath p ex = true ↔ ∃ part ∈ p, part ∈ ex := by
  unfold excludedPath
  rw [List.any_eq_true]
  constructor
  · rintro ⟨part, hmem, hd⟩
    exact ⟨part, hmem, (anyMem_iff part ex).mp hd⟩
  · rintro ⟨part, hmem, hin⟩
    exact ⟨part, hmem, (anyMem_iff part ex).mpr hin⟩

mutual
theorem copy_from_shape (ex : List String) (sD dD : FPath) :
    ∀ (rel : FPath) (t : FTree) (sp dp : FPath),
      (sp, dp) ∈ copy_files_recursive_from ex sD dD rel t →
      ∃ rel2 fname, sp = sD ++ rel2 ++ [fname] ∧ dp = dD ++ rel2 ++ [fname] ∧
        (∀ s ∈ rel2, ¬ s ∈ ex) ∧ ¬ fname ∈ ex
  | rel, FTree.node files subdirs, sp, dp, h => by
    unfold copy_files_recursive_from at h
    rw [List.mem_append] at h
    cases h with
    | inl h1 =>
      split at h1
      · simp at h1
      · next hcl =>
        rw [List.mem_filterMap] at h1
        obtain ⟨fname, hmem, hf⟩ := h1
        split at hf
        · simp at hf
        · next hfn =>
          injection hf with hf2
          injection hf2 with e1 e2
          refine ⟨rel, fname, e1.symm, e2.symm, ?_, ?_⟩
          · intro s hs hsex
            exact hcl (List.any_eq_true.mpr ⟨s, hs, (anyMem_iff s ex).mpr hsex⟩)
          · intro hfex
            exact hfn ((anyMem_iff fname ex).mpr hfex)
    | inr h2 => exact copy_subdirs_shape ex sD dD rel subdirs sp dp h2

theorem copy_subdirs_shape (ex : List String) (sD dD : FPath) :
    ∀ (rel : FPath) (l : List (String × FTree)) (sp dp : FPath),
      (sp, dp) ∈ copy_files_recursive_subdirs ex sD dD rel l →
      ∃ rel2 fname, sp = sD ++ rel2 ++ [fname] ∧ dp = dD ++ rel2 ++ [fname] ∧
        (∀ s ∈ rel2, ¬ s ∈ ex) ∧ ¬ fname ∈ ex
  | _, [], sp, dp, h => by simp [copy_files_recursive_subdirs] at h
  | rel, (d, t) :: rest, sp, dp, h => by
    unfold copy_files_recursive_subdirs at h
    rw [List.mem_append] at h
    cases h with
    | inl h1 => exact copy_from_shape ex sD dD (rel ++ [d]) t sp dp h1
    | inr h2 => exact copy_subdirs_shape ex sD dD rel rest sp dp h2
end

theorem probeBackupDir_succ (existing : List String) (bn : String)
    (i fuel : Nat) :
    probeBackupDir existing bn i (fuel + 1) =
      if (bn ++ "_" ++ toString i) ∈ existing then
        probeBackupDir existing bn (i + 1) fuel
      else some (bn ++ "_" ++ toString i, (bn ++ "_" ++ toString i) :: existing) :=
  rfl

theorem probeBackupDir_spec (bn : String) :
    ∀ (fuel i : Nat) (existing : List String),
      (∃ k, k < fuel ∧ ¬ (bn ++ "_" ++ toString (i + k)) ∈ existing) →
      ∃ j, i ≤ j ∧
        probeBackupDir existing bn i fuel =
          some (bn ++ "_" ++ toString j, (bn ++ "_" ++ toString j) :: existing) ∧
        ¬ (bn ++ "_" ++ toString j) ∈ existing ∧
        ∀ m, i ≤ m → m < j → (bn ++ "_" ++ toString m) ∈ existing := by
  intro fuel
  induction fuel with
  | zero =>
    intro i existing h
    obtain ⟨k, hk, -⟩ := h
    exact absurd hk (Nat.not_lt_zero k)
  | succ fuel ih =>
    intro i existing hex
    by_cases hc : (bn ++ "_" ++ toString i) ∈ existing
    · have hex2 : ∃ k, k < fuel ∧ ¬ (bn ++ "_" ++ toString (i + 1 + k)) ∈ existing := by
        obtain ⟨k, hk, hfree⟩ := hex
        cases k with
        | zero => exact absurd hc (by simpa using hfree)
        | succ k2 =>
          refine ⟨k2, by omega, ?_⟩
          rw [show i + 1 + k2 = i + (k2 + 1) by omega]
          exact hfree
      obtain ⟨j, hij, hres, hfree, hall⟩ := ih (i + 1) existing hex2
      refine ⟨j, by omega, ?_, hfree, ?_⟩
      · rw [probeBackupDir_succ, if_pos hc]
        exact hres
      · intro m him hmj
        by_cases hmi : m = i
        · rwa [hmi]
        · exact hall m (by omega) hmj
    · refine ⟨i, Nat.le_refl i, ?_, hc, ?_⟩
      · rw [probeBackupDir_succ, if_neg hc]
      · intro m him hmi
        omega

theorem probeBackupDir_fresh (bn : String) :
    ∀ (fuel i : Nat) (existing : List String) (r : String) (ex2 : List String),
      probeBackupDir existing bn i fuel = some (r, ex2) →
      ¬ r ∈ existing ∧ ex2 = r :: existing := by
  intro fuel
  induction fuel with
  | zero => intro i existing r ex2 h; simp [probeBackupDir] at h
  | succ fuel ih =>
    intro i existing r ex2 h
    rw [probeBackupDir_succ] at h
    split at h
    · exact ih (i + 1) existing r ex2 h
    · next hc =>
      have h2 := Option.some_inj.mp h
      injection h2 with e1 e2
      refine ⟨?_, ?_⟩
      · rw [← e1]
        exact hc
      · rw [← e2, e1]

theorem create_unique_backup_dir_eq (existing : List String) (bn : String)
    (dt : PyDateTime) :
    create_unique_backup_dir existing bn dt =
      if (bn ++ "_" ++ timestampYmdHMS dt) ∈ existing then Except.error ()
      else Except.ok (bn ++ "_" ++ timestampYmdHMS dt,
        (bn ++ "_" ++ timestampYmdHMS dt) :: existing) :=
  rfl

theorem allocate_backup_dir_fresh (existing : List String) (bn : String)
    (dt : PyDateTime) (fuel : Nat) (r : String) (ex2 : List String)
    (h : allocate_backup_dir existing bn dt fuel = some (r, ex2)) :
    ¬ r ∈ existing ∧ ex2 = r :: existing := by
  unfold allocate_backup_dir at h
  split at h
  · next val heq =>
    rw [create_unique_backup_dir_eq] at heq
    split at heq
    · exact absurd heq (by simp)
    · next hc =>
      have hv : (bn ++ "_" ++ timestampYmdHMS dt,
          (bn ++ "_" ++ timestampYmdHMS dt) :: existing) = val := Except.ok.inj heq
      have h2 := Option.some_inj.mp h
      rw [← hv] at h2
      injection h2 with e1 e2
      refine ⟨?_, ?_⟩
      · rw [← e1]
        exact hc
      · rw [← e2, e1]
  · next heq => exact probeBackupDir_fresh bn fuel 1 existing r ex2 h

/-!  Claim theorems.  -/

/-- C1: every path in the `deleted` list returned by `delete_backed_files`
is the source of some record of the input list on which `verify_pair`
(with the run's `use_hash` setting) passes.  The loop verifies each
record against the filesystem state at its turn; since the loop only
ever removes files, a record that verifies mid-run also verifies against
the state the run started from, so the property is stated against the
input state.  The hypothesis says no path is both a file and a
directory, which holds of every real filesystem. -/
theorem claim_C1_deleted_implies_verified (sha : List Nat → Nat) (fs : FS)
    (recs : List (FPath × FPath)) (ex : List String) (uh b : Bool)
    (hwf : wfFS fs = true) :
    ∀ p ∈ (delete_backed_files sha fs recs ex uh b).deleted,
      ∃ d, (p, d) ∈ recs ∧ verify_pair sha fs p d uh = true := by
  intro p hp
  rw [delete_backed_files_deleted] at hp
  exact deleteLoop_deleted_verified sha ex uh fs hwf recs fs (subFS_refl fs) p hp

/-- C9: `delete_backed_files` partitions its input records: each record
contributes exactly one entry, to `deleted` or to `failed`, so the
lengths add up to the number of records, each output list preserves the
input's relative order (it is a sublist of the sources in input order),
and together the two lists are a permutation of the sources. -/
theorem claim_C9_partition (sha : List Nat → Nat) (fs : FS)
    (recs : List (FPath × FPath)) (ex : List String) (uh b : Bool) :
    (delete_backed_files sha fs recs ex uh b).deleted.length +
        (delete_backed_files sha fs recs ex uh b).failed.length = recs.length ∧
    List.Sublist (delete_backed_files sha fs recs ex uh b).deleted
      (recs.map Prod.fst) ∧
    List.Sublist ((delete_backed_files sha fs recs ex uh b).failed.map Prod.fst)
      (recs.map Prod.fst) ∧
    List.Perm ((delete_backed_files sha fs recs ex uh b).deleted ++
      (delete_backed_files sha fs recs ex uh b).failed.map Prod.fst)
      (recs.map Prod.fst) := by
  simp only [delete_backed_files_deleted, delete_backed_files_failed]
  exact deleteLoop_partition sha ex uh recs fs

/-- C10: the exclusion safety check of `delete_backed_files` (line 96)
looks at every segment of the source's full path, not only at the part
below the source root: if some common path prefix of all records (for
example an ancestor directory of the source root) contains an excluded
name, every record is marked failed with reason `excluded`, nothing is
deleted, and the filesystem is untouched. -/
theorem claim_C10_ancestor_exclusion_fails_all (sha : List Nat → Nat)
    (fs : FS) (ex : List String) (uh b : Bool) (pre : FPath)
    (recs : List (FPath × FPath))
    (hseg : ∃ seg ∈ pre, seg ∈ ex)
    (hrec : ∀ r ∈ recs, ∃ t, r.1 = pre ++ t) :
    delete_backed_files sha fs recs ex uh b =
      ⟨fs, [], recs.map (fun r => (r.1, "excluded"))⟩ := by
  have hloop : ∀ l : List (FPath × FPath),
      (∀ r ∈ l, ∃ t, r.1 = pre ++ t) →
      deleteLoop sha ex uh fs l = ⟨fs, [], l.map (fun r => (r.1, "excluded"))⟩ := by
    intro l
    induction l with
    | nil => intro _; rfl
    | cons a rest ih =>
      intro hall
      obtain ⟨src, dst⟩ := a
      have hex : excludedPath src ex = true := by
        rw [excludedPath_eq_true_iff]
        obtain ⟨seg, hsp, hse⟩ := hseg
        obtain ⟨t2, ht⟩ := hall (src, dst) (List.mem_cons_self _ _)
        refine ⟨seg, ?_, hse⟩
        have h2 : src = pre ++ t2 := ht
        rw [h2]
        exact List.mem_append.mpr (Or.inl hsp)
      rw [deleteLoop_cons_excluded sha ex uh fs src dst rest hex,
        ih (fun r hr => hall r (List.mem_cons_of_mem _ hr))]
      rfl
  have h1 := hloop recs hrec
  cases b
  · simp [delete_backed_files, h1]
  · simp [delete_backed_files, h1, pruneCandidates]

/-- C4: an error raised while deleting one record's source file is caught
for that record alone: the record is reported in `failed` as
`delete_error:` followed by the exception's message, the filesystem is
left unchanged by the failed step, and every remaining record is
processed exactly as it would have been (the batch is not aborted). -/
theorem claim_C4_delete_error_isolated (sha : List Nat → Nat) (fs : FS)
    (ex : List String) (uh b : Bool) (src dst : FPath)
    (rest : List (FPath × FPath)) (f : File) (e : String)
    (hex : excludedPath src ex = false)
    (hv : verify_pair sha fs src dst uh = true)
    (hf : lookupFile fs.files src = some f)
    (he : f.unlinkError = some e) :
    (delete_backed_files sha fs ((src, dst) :: rest) ex uh b).deleted =
      (delete_backed_files sha fs rest ex uh b).deleted ∧
    (delete_backed_files sha fs ((src, dst) :: rest) ex uh b).failed =
      (src, "delete_error:" ++ e) ::
        (delete_backed_files sha fs rest ex uh b).failed ∧
    (deleteLoop sha ex uh fs ((src, dst) :: rest)).fs =
      (deleteLoop sha ex uh fs rest).fs := by
  have hu : unlink_fs fs src = Except.error e := by
    simp [unlink_fs, hf, he]
  have hstep := deleteLoop_cons_unlink_err sha ex uh fs src dst rest e hex hv hu
  refine ⟨?_, ?_, ?_⟩
  · simp only [delete_backed_files_deleted]
    rw [hstep]
  · simp only [delete_backed_files_failed]
    rw [hstep]
  · rw [hstep]

/-- C5 counterexample: the claim says the failure reason recorded by
`delete_backed_files` distinguishes a missing destination from a size
mismatch (and from digest mismatches and read errors).  It does not: on
a record whose destination is missing and on a record whose destination
has a different size — two provably different causes — the recorded
reason is the identical string `verification_failed`. -/
theorem claim_C5_counterexample :
    pexists ⟨[(["r", "s"], ⟨[1], false, false, none⟩)], [], []⟩ ["r", "d"] = false ∧
    pexists ⟨[(["r", "s"], ⟨[1], false, false, none⟩),
      (["r", "d"], ⟨[1, 2], false, false, none⟩)], [], []⟩ ["r", "d"] = true ∧
    statSize ⟨[(["r", "s"], ⟨[1], false, false, none⟩),
        (["r", "d"], ⟨[1, 2], false, false, none⟩)], [], []⟩ ["r", "s"] ≠
      statSize ⟨[(["r", "s"], ⟨[1], false, false, none⟩),
        (["r", "d"], ⟨[1, 2], false, false, none⟩)], [], []⟩ ["r", "d"] ∧
    (deleteLoop (fun c => c.length) [] false
        ⟨[(["r", "s"], ⟨[1], false, false, none⟩)], [], []⟩
        [(["r", "s"], ["r", "d"])]).failed =
      [(["r", "s"], "verification_failed")] ∧
    (deleteLoop (fun c => c.length) [] false
        ⟨[(["r", "s"], ⟨[1], false, false, none⟩),
          (["r", "d"], ⟨[1, 2], false, false, none⟩)], [], []⟩
        [(["r", "s"], ["r", "d"])]).failed =
      [(["r", "s"], "verification_failed")] := by
  refine ⟨rfl, rfl, by decide, rfl, rfl⟩

/-- C5 amended: when verification of a record fails, `delete_backed_files`
marks that record failed with the single fixed reason string
`verification_failed` — the verifier returns only a boolean, so the
cause (missing destination, size mismatch, digest mismatch or read
error) is not distinguished — and leaves the source file untouched: the
filesystem is unchanged by the step and the remaining records are
processed as they would have been. -/
theorem claim_C5_amended_uniform_failure_reason (sha : List Nat → Nat)
    (fs : FS) (ex : List String) (uh b : Bool) (src dst : FPath)
    (rest : List (FPath × FPath))
    (hex : excludedPath src ex = false)
    (hv : verify_pair sha fs src dst uh = false) :
    (delete_backed_files sha fs ((src, dst) :: rest) ex uh b).deleted =
      (delete_backed_files sha fs rest ex uh b).deleted ∧
    (delete_backed_files sha fs ((src, dst) :: rest) ex uh b).failed =
      (src, "verification_failed") ::
        (delete_backed_files sha fs rest ex uh b).failed ∧
    (deleteLoop sha ex uh fs ((src, dst) :: rest)).fs =
      (deleteLoop sha ex uh fs rest).fs := by
  have hstep := deleteLoop_cons_not_verified sha ex uh fs src dst rest hex hv
  refine ⟨?_, ?_, ?_⟩
  · simp only [delete_backed_files_deleted]
    rw [hstep]
  · simp only [delete_backed_files_failed]
    rw [hstep]
  · rw [hstep]

theorem statSize_eq_of_lookup {fs : FS} {p : FPath} {f : File}
    (h : lookupFile fs.files p = some f) :
    statSize fs p = if f.statError then none else some f.content.length := by
  unfold statSize
  rw [h]

theorem readContent_eq_of_lookup {fs : FS} {p : FPath} {f : File}
    (h : lookupFile fs.files p = some f) :
    readContent fs p = if f.readError then none else some f.content := by
  unfold readContent
  rw [h]

/-- C3: `verify_pair` is a total boolean function — the modelled
`except` handler maps every raised exception (`none` from a stat, read
or hash step) to `false` instead of propagating it — and on file paths
(the hypotheses say neither path is a directory) it returns `true`
exactly when both files are present, stat raises on neither, the byte
sizes agree, and, when `use_hash` is set, reading raises on neither and
the SHA-256 digests of the two contents agree. -/
theorem claim_C3_verify_pair_characterization (sha : List Nat → Nat)
    (fs : FS) (src dst : FPath) (uh : Bool)
    (hs : ¬ src ∈ fs.dirs) (hd : ¬ dst ∈ fs.dirs) :
    verify_pair sha fs src dst uh = true ↔
      ∃ f g, lookupFile fs.files src = some f ∧
        lookupFile fs.files dst = some g ∧
        f.statError = false ∧ g.statError = false ∧
        f.content.length = g.content.length ∧
        (uh = true → f.readError = false ∧ g.readError = false ∧
          sha f.content = sha g.content) := by
  rw [verify_pair_eq_true_iff]
  constructor
  · rintro ⟨h1, h2, ⟨n, h3, h4⟩, h5⟩
    cases hlf : lookupFile fs.files src with
    | none =>
      exfalso
      unfold pexists at h1
      rw [hlf] at h1
      simp [hs] at h1
    | some f =>
      cases hlg : lookupFile fs.files dst with
      | none =>
        exfalso
        unfold pexists at h2
        rw [hlg] at h2
        simp [hd] at h2
      | some g =>
        rw [statSize_eq_of_lookup hlf] at h3
        rw [statSize_eq_of_lookup hlg] at h4
        have hsf : f.statError = false := by
          cases hb : f.statError
          · rfl
          · rw [hb] at h3
            simp at h3
        have hsg : g.statError = false := by
          cases hb : g.statError
          · rfl
          · rw [hb] at h4
            simp at h4
        rw [hsf] at h3
        rw [hsg] at h4
        simp at h3 h4
        refine ⟨f, g, rfl, rfl, hsf, hsg, by omega, ?_⟩
        intro hu
        obtain ⟨c, c2, hc, hc2, he⟩ := h5 hu
        rw [readContent_eq_of_lookup hlf] at hc
        rw [readContent_eq_of_lookup hlg] at hc2
        have hrf : f.readError = false := by
          cases hb : f.readError
          · rfl
          · rw [hb] at hc
            simp at hc
        have hrg : g.readError = false := by
          cases hb : g.readError
          · rfl
          · rw [hb] at hc2
            simp at hc2
        rw [hrf] at hc
        rw [hrg] at hc2
        simp at hc hc2
        refine ⟨hrf, hrg, ?_⟩
        rw [hc, hc2]
        exact he
  · rintro ⟨f, g, hf, hg, hsf, hsg, hlen, hread⟩
    refine ⟨?_, ?_, ⟨f.content.length, ?_, ?_⟩, ?_⟩
    · unfold pexists
      rw [hf]
      simp
    · unfold pexists
      rw [hg]
      simp
    · rw [statSize_eq_of_lookup hf, hsf]
      simp
    · rw [statSize_eq_of_lookup hg, hsg]
      simp
      exact hlen.symm
    · intro hu
      obtain ⟨hrf, hrg, he⟩ := hread hu
      refine ⟨f.content, g.content, ?_, ?_, he⟩
      · rw [readContent_eq_of_lookup hf, hrf]
        simp
      · rw [readContent_eq_of_lookup hg, hrg]
        simp

/-- C7: with `remove_empty_dirs` set, the returned `deleted`/`failed`
lists are exactly those of a run without pruning (pruning and its
swallowed errors never affect them); the candidate list considered for
pruning contains exactly the parents of the successfully deleted files,
without duplicates, sorted deepest-first by segment count; pruning never
touches files and only ever removes directories; and any directory that
pruning removed was a candidate, had no `rmdir` error, and contained no
file at removal time (the loop's surviving files are pruning's files,
and none of them sits directly inside a removed directory). -/
theorem claim_C7_prune_empty_dirs (sha : List Nat → Nat) (fs : FS)
    (recs : List (FPath × FPath)) (ex : List String) (uh : Bool) :
    ((delete_backed_files sha fs recs ex uh true).deleted =
        (delete_backed_files sha fs recs ex uh false).deleted ∧
      (delete_backed_files sha fs recs ex uh true).failed =
        (delete_backed_files sha fs recs ex uh false).failed) ∧
    (∀ d, d ∈ pruneCandidates (delete_backed_files sha fs recs ex uh true).deleted ↔
      ∃ p ∈ (delete_backed_files sha fs recs ex uh true).deleted, parentDir p = d) ∧
    (pruneCandidates (delete_backed_files sha fs recs ex uh true).deleted).Nodup ∧
    (pruneCandidates (delete_backed_files sha fs recs ex uh true).deleted).Pairwise
      deeperFirst ∧
    (delete_backed_files sha fs recs ex uh true).fs.files =
      (delete_backed_files sha fs recs ex uh false).fs.files ∧
    (∀ q, q ∈ (delete_backed_files sha fs recs ex uh true).fs.dirs →
      q ∈ (delete_backed_files sha fs recs ex uh false).fs.dirs) ∧
    (∀ q, q ∈ (delete_backed_files sha fs recs ex uh false).fs.dirs →
      ¬ q ∈ (delete_backed_files sha fs recs ex uh true).fs.dirs →
      q ∈ pruneCandidates (delete_backed_files sha fs recs ex uh true).deleted ∧
      ¬ q ∈ fs.rmdirError ∧
      (delete_backed_files sha fs recs ex uh false).fs.files.any
        (fun e => decide (parentDir e.1 = q)) = false) := by
  have hT : delete_backed_files sha fs recs ex uh true =
      ⟨List.foldl pruneOne (deleteLoop sha ex uh fs recs).fs
        (pruneCandidates (deleteLoop sha ex uh fs recs).deleted),
        (deleteLoop sha ex uh fs recs).deleted,
        (deleteLoop sha ex uh fs recs).failed⟩ := by
    simp [delete_backed_files]
  have hF : delete_backed_files sha fs recs ex uh false =
      deleteLoop sha ex uh fs recs := by
    simp [delete_backed_files]
  rw [hT, hF]
  refine ⟨⟨rfl, rfl⟩, fun d => pruneCandidates_mem _ d, pruneCandidates_nodup _,
    pruneCandidates_sorted _, foldl_pruneOne_files _ _,
    fun q hq => foldl_pruneOne_dirs_subset _ _ q hq, fun q hq hnq => ?_⟩
  obtain ⟨h1, h2, h3⟩ := foldl_pruneOne_removed
    (pruneCandidates (deleteLoop sha ex uh fs recs).deleted)
    (deleteLoop sha ex uh fs recs).fs q hq hnq
  refine ⟨h1, ?_, h3⟩
  rw [(deleteLoop_dirs sha ex uh recs fs).2] at h2
  exact h2

/-- C2: in recursive mode, a file whose path relative to the source root
contains a segment from the exclusion set is never copied: no produced
record has it as its source.  Directory segments are caught by the
whole-subtree skip of line 61, the file's own name by the per-file check
of line 69. -/
theorem claim_C2_excluded_segment_never_copied (ex : List String)
    (sD dD : FPath) (t : FTree) (relpath dp : FPath)
    (h : ∃ seg ∈ relpath, seg ∈ ex) :
    ¬ (sD ++ relpath, dp) ∈ copy_files_recursive ex sD dD t := by
  intro hmem
  obtain ⟨rel2, fname, he1, he2, hcln, hfn⟩ :=
    copy_from_shape ex sD dD [] t (sD ++ relpath) dp hmem
  have hrp : relpath = rel2 ++ [fname] := by
    rw [List.append_assoc] at he1
    exact List.append_cancel_left he1
  obtain ⟨seg, hsr, hsex⟩ := h
  rw [hrp, List.mem_append] at hsr
  cases hsr with
  | inl hmid => exact hcln seg hmid hsex
  | inr hlast =>
    rw [List.mem_singleton] at hlast
    rw [hlast] at hsex
    exact hfn hsex

/-- C6: allocation first tries `{base_name}_{timestamp}` with the
timestamp rendered by `strftime("%Y%m%d_%H%M%S")`; exactly when that
directory already exists it probes `{base_name}_1`, `{base_name}_2`, …
and (given enough fuel to reach a free name, the claim's finiteness
assumption) stops at the first integer whose directory does not yet
exist; and a second allocation in the same second (same timestamp) on
the updated directory set never returns the first allocation's name,
because every allocated name was previously non-existent. -/
theorem claim_C6_allocation_probe (existing : List String) (bn : String)
    (dt : PyDateTime) (fuel : Nat)
    (hfuel : ∃ k, k < fuel ∧ ¬ (bn ++ "_" ++ toString (1 + k)) ∈ existing) :
    (¬ (bn ++ "_" ++ timestampYmdHMS dt) ∈ existing →
      allocate_backup_dir existing bn dt fuel =
        some (bn ++ "_" ++ timestampYmdHMS dt,
          (bn ++ "_" ++ timestampYmdHMS dt) :: existing)) ∧
    ((bn ++ "_" ++ timestampYmdHMS dt) ∈ existing →
      ∃ j, 1 ≤ j ∧
        allocate_backup_dir existing bn dt fuel =
          some (bn ++ "_" ++ toString j, (bn ++ "_" ++ toString j) :: existing) ∧
        ¬ (bn ++ "_" ++ toString j) ∈ existing ∧
        ∀ m, 1 ≤ m → m < j → (bn ++ "_" ++ toString m) ∈ existing) ∧
    (∀ (fuel2 : Nat) (r r2 : String) (ex2 ex3 : List String),
      allocate_backup_dir existing bn dt fuel = some (r, ex2) →
      allocate_backup_dir ex2 bn dt fuel2 = some (r2, ex3) → r2 ≠ r) := by
  refine ⟨?_, ?_, ?_⟩
  · intro hfree
    unfold allocate_backup_dir
    rw [create_unique_backup_dir_eq, if_neg hfree]
  · intro hcoll
    obtain ⟨j, h1j, hres, hfree, hall⟩ := probeBackupDir_spec bn fuel 1 existing hfuel
    refine ⟨j, h1j, ?_, hfree, hall⟩
    unfold allocate_backup_dir
    rw [create_unique_backup_dir_eq, if_pos hcoll]
    exact hres
  · intro fuel2 r r2 ex2 ex3 h1 h2
    obtain ⟨hr1, hex2⟩ := allocate_backup_dir_fresh existing bn dt fuel r ex2 h1
    obtain ⟨hr2, -⟩ := allocate_backup_dir_fresh ex2 bn dt fuel2 r2 ex3 h2
    intro hrr
    rw [hex2] at hr2
    exact hr2 (by rw [hrr]; exact List.mem_cons_self r existing)

/-- C8: when deletion is requested without `--force` and the confirmation
answer, stripped and lowercased, is anything but `y`, the run performs
no deletion at all: `main`'s deletion phase returns with zero deleted
files, zero failures, and the filesystem — originals and the already
written backup alike — exactly as it was. -/
theorem claim_C8_declined_confirmation_no_deletion (sha : List Nat → Nat)
    (fs : FS) (copied : List (FPath × FPath)) (ex : List String)
    (args : Args) (resp : String) (hdel : args.delete = true)
    (hforce : args.force = false) (hresp : strip_lower resp ≠ "y") :
    main_delete_phase sha fs copied ex args resp = ⟨fs, [], []⟩ := by
  unfold main_delete_phase
  rw [hdel, hforce]
  simp [hresp]

/-!  Concrete witnesses.  -/

/-- Digest stand-in used by the witnesses. -/
def shaW : List Nat → Nat := fun c => c.length

/-- Sample filesystem: one source file and its backup copy. -/
def fsW : FS :=
  ⟨[(["r", "a"], ⟨[1], false, false, none⟩),
    (["r", "b", "a"], ⟨[1], false, false, none⟩)], [["r"], ["r", "b"]], []⟩

/-- Sample filesystem whose source file raises on `unlink`. -/
def fsW4 : FS :=
  ⟨[(["r", "a"], ⟨[1], false, false, some "Permission denied"⟩),
    (["r", "b", "a"], ⟨[1], false, false, none⟩)], [["r"], ["r", "b"]], []⟩

/-- Sample filesystem with a source file whose backup copy is missing. -/
def fsW5 : FS := ⟨[(["r", "s"], ⟨[1], false, false, none⟩)], [], []⟩

theorem claim_C1_witness :
    wfFS fsW = true ∧
    ∀ p ∈ (delete_backed_files shaW fsW [(["r", "a"], ["r", "b", "a"])]
        ["x"] true false).deleted,
      ∃ d, (p, d) ∈ [(["r", "a"], ["r", "b", "a"])] ∧
        verify_pair shaW fsW p d true = true :=
  ⟨by decide, claim_C1_deleted_implies_verified shaW fsW
    [(["r", "a"], ["r", "b", "a"])] ["x"] true false (by decide)⟩

theorem claim_C2_witness :
    (∃ seg ∈ (["bk", "f3"] : FPath), seg ∈ (["bk"] : List String)) ∧
    (["r", "sub", "f2"], ["r", "bkdir", "sub", "f2"]) ∈
      copy_files_recursive ["bk"] ["r"] ["r", "bkdir"]
        (FTree.node ["f1"]
          [("bk", FTree.node ["f3"] []), ("sub", FTree.node ["f2"] [])]) ∧
    ¬ (["r"] ++ ["bk", "f3"], ["r", "bkdir", "bk", "f3"]) ∈
      copy_files_recursive ["bk"] ["r"] ["r", "bkdir"]
        (FTree.node ["f1"]
          [("bk", FTree.node ["f3"] []), ("sub", FTree.node ["f2"] [])]) :=
  ⟨by decide, by decide,
    claim_C2_excluded_segment_never_copied ["bk"] ["r"] ["r", "bkdir"]
      (FTree.node ["f1"]
        [("bk", FTree.node ["f3"] []), ("sub", FTree.node ["f2"] [])])
      ["bk", "f3"] ["r", "bkdir", "bk", "f3"] (by decide)⟩

theorem claim_C3_witness :
    (¬ (["r", "a"] : FPath) ∈ fsW.dirs) ∧
    (¬ (["r", "b", "a"] : FPath) ∈ fsW.dirs) ∧
    (verify_pair shaW fsW ["r", "a"] ["r", "b", "a"] true = true ↔
      ∃ f g, lookupFile fsW.files ["r", "a"] = some f ∧
        lookupFile fsW.files ["r", "b", "a"] = some g ∧
        f.statError = false ∧ g.statError = false ∧
        f.content.length = g.content.length ∧
        (true = true → f.readError = false ∧ g.readError = false ∧
          shaW f.content = shaW g.content)) :=
  ⟨by decide, by decide,
    claim_C3_verify_pair_characterization shaW fsW ["r", "a"] ["r", "b", "a"]
      true (by decide) (by decide)⟩

theorem claim_C4_witness :
    excludedPath ["r", "a"] ["x"] = false ∧
    verify_pair shaW fsW4 ["r", "a"] ["r", "b", "a"] true = true ∧
    lookupFile fsW4.files ["r", "a"] =
      some ⟨[1], false, false, some "Permission denied"⟩ ∧
    (⟨[1], false, false, some "Permission denied"⟩ : File).unlinkError =
      some "Permission denied" ∧
    ((delete_backed_files shaW fsW4 [(["r", "a"], ["r", "b", "a"])]
        ["x"] true false).deleted =
      (delete_backed_files shaW fsW4 [] ["x"] true false).deleted ∧
    (delete_backed_files shaW fsW4 [(["r", "a"], ["r", "b", "a"])]
        ["x"] true false).failed =
      (["r", "a"], "delete_error:" ++ "Permission denied") ::
        (delete_backed_files shaW fsW4 [] ["x"] true false).failed ∧
    (deleteLoop shaW ["x"] true fsW4 [(["r", "a"], ["r", "b", "a"])]).fs =
      (deleteLoop shaW ["x"] true fsW4 []).fs) :=
  ⟨by decide, by decide, by decide, rfl,
    claim_C4_delete_error_isolated shaW fsW4 ["x"] true false ["r", "a"]
      ["r", "b", "a"] [] ⟨[1], false, false, some "Permission denied"⟩
      "Permission denied" (by decide) (by decide) (by decide) rfl⟩

theorem claim_C5_witness :
    excludedPath ["r", "s"] ["x"] = false ∧
    verify_pair shaW fsW5 ["r", "s"] ["r", "d"] false = false ∧
    ((delete_backed_files shaW fsW5 [(["r", "s"], ["r", "d"])]
        ["x"] false false).deleted =
      (delete_backed_files shaW fsW5 [] ["x"] false false).deleted ∧
    (delete_backed_files shaW fsW5 [(["r", "s"], ["r", "d"])]
        ["x"] false false).failed =
      (["r", "s"], "verification_failed") ::
        (delete_backed_files shaW fsW5 [] ["x"] false false).failed ∧
    (deleteLoop shaW ["x"] false fsW5 [(["r", "s"], ["r", "d"])]).fs =
      (deleteLoop shaW ["x"] false fsW5 []).fs) :=
  ⟨by decide, by decide,
    claim_C5_amended_uniform_failure_reason shaW fsW5 ["x"] false false
      ["r", "s"] ["r", "d"] [] (by decide) (by decide)⟩

theorem claim_C6_witness :
    timestampYmdHMS ⟨2025, 1, 1, 0, 0, 0⟩ = "20250101_000000" ∧
    (1 < 5 ∧ ¬ ("backup" ++ "_" ++ toString (1 + 1)) ∈
      (["backup_20250101_000000", "backup_1"] : List String)) ∧
    ((¬ ("backup" ++ "_" ++ timestampYmdHMS ⟨2025, 1, 1, 0, 0, 0⟩) ∈
        (["backup_20250101_000000", "backup_1"] : List String) →
      allocate_backup_dir ["backup_20250101_000000", "backup_1"] "backup"
          ⟨2025, 1, 1, 0, 0, 0⟩ 5 =
        some ("backup" ++ "_" ++ timestampYmdHMS ⟨2025, 1, 1, 0, 0, 0⟩,
          ("backup" ++ "_" ++ timestampYmdHMS ⟨2025, 1, 1, 0, 0, 0⟩) ::
            ["backup_20250101_000000", "backup_1"])) ∧
    (("backup" ++ "_" ++ timestampYmdHMS ⟨2025, 1, 1, 0, 0, 0⟩) ∈
        (["backup_20250101_000000", "backup_1"] : List String) →
      ∃ j, 1 ≤ j ∧
        allocate_backup_dir ["backup_20250101_000000", "backup_1"] "backup"
            ⟨2025, 1, 1, 0, 0, 0⟩ 5 =
          some ("backup" ++ "_" ++ toString j,
            ("backup" ++ "_" ++ toString j) ::
              ["backup_20250101_000000", "backup_1"]) ∧
        ¬ ("backup" ++ "_" ++ toString j) ∈
          (["backup_20250101_000000", "backup_1"] : List String) ∧
        ∀ m, 1 ≤ m → m < j → ("backup" ++ "_" ++ toString m) ∈
          (["backup_20250101_000000", "backup_1"] : List String)) ∧
    (∀ (fuel2 : Nat) (r r2 : String) (ex2 ex3 : List String),
      allocate_backup_dir ["backup_20250101_000000", "backup_1"] "backup"
        ⟨2025, 1, 1, 0, 0, 0⟩ 5 = some (r, ex2) →
      allocate_backup_dir ex2 "backup" ⟨2025, 1, 1, 0, 0, 0⟩ fuel2 =
        some (r2, ex3) → r2 ≠ r)) :=
  ⟨by decide, by decide,
    claim_C6_allocation_probe ["backup_20250101_000000", "backup_1"] "backup"
      ⟨2025, 1, 1, 0, 0, 0⟩ 5 ⟨1, by decide⟩⟩

theorem claim_C8_witness :
    (⟨false, "backup", true, false, false, false⟩ : Args).delete = true ∧
    (⟨false, "backup", true, false, false, false⟩ : Args).force = false ∧
    strip_lower "  N  " ≠ "y" ∧
    main_delete_phase shaW fsW [(["r", "a"], ["r", "b", "a"])] ["x"]
      ⟨false, "backup", true, false, false, false⟩ "  N  " = ⟨fsW, [], []⟩ :=
  ⟨rfl, rfl, by decide,
    claim_C8_declined_confirmation_no_deletion shaW fsW
      [(["r", "a"], ["r", "b", "a"])] ["x"]
      ⟨false, "backup", true, false, false, false⟩ "  N  " rfl rfl (by decide)⟩

theorem claim_C10_witness :
    (∃ seg ∈ (["home", "final_backup.py"] : FPath),
      seg ∈ (["final_backup.py", "backup_1"] : List String)) ∧
    (∀ r ∈ [((["home", "final_backup.py", "w", "a"] : FPath), (["d1"] : FPath)),
        (["home", "final_backup.py", "w", "b"], ["d2"])],
      ∃ t, r.1 = ["home", "final_backup.py"] ++ t) ∧
    delete_backed_files shaW ⟨[], [], []⟩
        [(["home", "final_backup.py", "w", "a"], ["d1"]),
          (["home", "final_backup.py", "w", "b"], ["d2"])]
        ["final_backup.py", "backup_1"] false false =
      ⟨⟨[], [], []⟩, [],
        [(["home", "final_backup.py", "w", "a"], "excluded"),
          (["home", "final_backup.py", "w", "b"], "excluded")]⟩ := by
  have hrec2 : ∀ r ∈ [((["home", "final_backup.py", "w", "a"] : FPath),
      (["d1"] : FPath)), (["home", "final_backup.py", "w", "b"], ["d2"])],
      ∃ t, r.1 = ["home", "final_backup.py"] ++ t := by
    intro r hr
    rcases List.mem_cons.mp hr with h | h
    · exact ⟨["w", "a"], by rw [h]; rfl⟩
    · rcases List.mem_cons.mp h with h2 | h2
      · exact ⟨["w", "b"], by rw [h2]; rfl⟩
      · simp at h2
  exact ⟨by decide, hrec2,
    claim_C10_ancestor_exclusion_fails_all shaW ⟨[], [], []⟩
      ["final_backup.py", "backup_1"] false false ["home", "final_backup.py"]
      [(["home", "final_backup.py", "w", "a"], ["d1"]),
        (["home", "final_backup.py", "w", "b"], ["d2"])] (by decide) hrec2⟩
